import Mathlib

/-!
# Verification of the canvas drawing component (`src/canvas.tsx`)

Shallow embedding of the stroke data model, the geometry utilities, the
mouse/touch event handlers, the undo operation and the persistence codec of
the React canvas component, together with theorems settling the spec claims.

Modelling conventions:
* Canvas pixel coordinates are modelled as `Int`.  All coordinate arithmetic
  in the source (`offsetX - stroke.position.x`, `clientX - rect.left`, ...)
  is plain subtraction/addition, faithfully mirrored on `Int`.
* `Math.hypot(dx, dy) < 10` is embedded as the equivalent decidable test
  `dx^2 + dy^2 < 100`; the bridge to the real-valued Euclidean distance is
  proved (`isClosedPath_iff_dist`).
* The rendering surface (`canvas.getContext("2d")`) is an external
  collaborator.  Its point-in-path containment primitive is a parameter of
  the model (`Env.isPointInPath`); a missing canvas/context is the flag
  `Env.canvasPresent = false`, under which `isInsideStroke` returns `false`
  exactly as the source's early `return false`.
* React `useState` cells become fields of an explicit `CanvasState`; each
  event handler becomes a pure state transformer, transcribed branch by
  branch from the source.
* `JSON.stringify` / `JSON.parse` are the platform's JSON codec; the file
  content is modelled at the level of the parsed JSON value (`Json`), with
  `Option Json` as the result of parsing (`none` = read failure or thrown
  parse error).  A JavaScript `undefined` obtained by destructuring a missing
  field is modelled as `Option.none`.
-/

/-- `Point` — `{x, y}` in canvas pixel coordinates (`interface Point`). -/
structure Point where
  x : Int
  y : Int
deriving DecidableEq, Repr, Inhabited

/-- `Stroke` — `{ points, color, position }` (`interface Stroke`). -/
structure Stroke where
  points : List Point
  color : String
  position : Point
deriving DecidableEq, Repr

/-- External rendering-surface collaborator: whether the canvas (and its 2d
context) is attached, and the `ctx.isPointInPath` containment primitive
applied to the closed path built from a point list. -/
structure Env where
  canvasPresent : Bool
  isPointInPath : List Point → Int → Int → Bool

/-- The component's `useState` cells that carry document/interaction state. -/
structure CanvasState where
  isDrawing : Bool
  strokes : List Stroke
  currentStroke : List Point
  fillColor : String
  isDragging : Bool
  draggedStrokeIndex : Option Nat
  dragOffset : Option Point
deriving DecidableEq, Repr

/-- Initial state of the component's `useState` cells. -/
def initState : CanvasState :=
  { isDrawing := false
    strokes := []
    currentStroke := []
    fillColor := "#cdecde"
    isDragging := false
    draggedStrokeIndex := none
    dragOffset := none }

/-- `isClosedPath`: `stroke.length < 2` gives `false`; otherwise compare
`Math.hypot(end.x - start.x, end.y - start.y)` with the constant `10`,
embedded as the squared comparison on `Int`. -/
def isClosedPath (stroke : List Point) : Bool :=
  if stroke.length < 2 then false
  else
    match stroke.head?, stroke.getLast? with
    | some s, some e =>
        decide ((e.x - s.x) ^ 2 + (e.y - s.y) ^ 2 < 100)
    | _, _ => false

/-- `isInsideStroke`: builds the closed path of `points` and asks the 2d
context; returns `false` when the context is missing. -/
def isInsideStroke (env : Env) (points : List Point) (x y : Int) : Bool :=
  if env.canvasPresent then env.isPointInPath points x y else false

/-- The `points.map((p) => ({x: p.x + position.x, y: p.y + position.y}))`
adjustment inside `findClickedStrokeIndex`. -/
def adjustedPoints (s : Stroke) : List Point :=
  s.points.map fun p => ⟨p.x + s.position.x, p.y + s.position.y⟩

/-- The descending `for (let i = strokes.length - 1; i >= 0; i--)` loop of
`findClickedStrokeIndex`: `go (i+1)` tests index `i` before indices below. -/
def findFromTop (env : Env) (strokes : List Stroke) (x y : Int) :
    Nat → Option Nat
  | 0 => none
  | i + 1 =>
    match strokes[i]? with
    | some s =>
        if isInsideStroke env (adjustedPoints s) x y then some i
        else findFromTop env strokes x y i
    | none => findFromTop env strokes x y i

/-- `findClickedStrokeIndex(x, y)`: scan committed strokes from last to
first, returning the first index whose adjusted points contain `(x, y)`. -/
def findClickedStrokeIndex (env : Env) (strokes : List Stroke) (x y : Int) :
    Option Nat :=
  findFromTop env strokes x y strokes.length

/-- The `prev.map((stroke, index) => index === draggedStrokeIndex ?
{...stroke, position: newPosition} : stroke)` update shared by
`handleMouseMove` and `handleTouchMove`. -/
def repositionStrokes (strokes : List Stroke) (i : Nat) (newPosition : Point) :
    List Stroke :=
  strokes.mapIdx fun idx s =>
    if idx = i then { s with position := newPosition } else s

/-- `handleMouseDown`: hit-test at `(offsetX, offsetY)`; on a hit enter
dragging with `dragOffset = pointer - stroke.position`, otherwise seed the
draw buffer with the single point and enter drawing.  (The `none` fallback of
the inner match is unreachable: `findClickedStrokeIndex` only returns indices
of existing strokes.) -/
def handleMouseDown (env : Env) (st : CanvasState) (x y : Int) : CanvasState :=
  match findClickedStrokeIndex env st.strokes x y with
  | some i =>
    match st.strokes[i]? with
    | some stroke =>
        { st with
            isDragging := true
            draggedStrokeIndex := some i
            dragOffset := some ⟨x - stroke.position.x, y - stroke.position.y⟩ }
    | none => st
  | none =>
      { st with currentStroke := [⟨x, y⟩], isDrawing := true }

/-- `handleMouseMove`: while dragging (all three of `isDragging`,
`draggedStrokeIndex`, `dragOffset` set) reposition the dragged stroke to
`pointer - dragOffset`; else while drawing (and the canvas is attached)
append the pointer to the draw buffer (the live-feedback segment drawn via
the 2d context has no state effect). -/
def handleMouseMove (env : Env) (st : CanvasState) (x y : Int) : CanvasState :=
  match st.isDragging, st.draggedStrokeIndex, st.dragOffset with
  | true, some i, some off =>
      { st with strokes := repositionStrokes st.strokes i ⟨x - off.x, y - off.y⟩ }
  | _, _, _ =>
      if st.isDrawing && env.canvasPresent then
        { st with currentStroke := st.currentStroke ++ [⟨x, y⟩] }
      else st

/-- `handleMouseUp` (also bound to `onMouseLeave`): end a drag by clearing
the transient drag state; else if drawing with a non-empty buffer, append
`{points: currentStroke, color: fillColor, position: {x:0, y:0}}` to the
stroke list and clear the buffer. -/
def handleMouseUp (st : CanvasState) : CanvasState :=
  if st.isDragging then
    { st with isDragging := false, draggedStrokeIndex := none, dragOffset := none }
  else if st.isDrawing && st.currentStroke.length > 0 then
    { st with
        strokes := st.strokes ++
          [{ points := st.currentStroke, color := st.fillColor
             position := ⟨0, 0⟩ }]
        currentStroke := []
        isDrawing := false }
  else st

/-- `handleTouchStart`: early `return` when the canvas is missing; otherwise
derive local coordinates `clientX - rect.left`, `clientY - rect.top` and
proceed exactly as `handleMouseDown`. -/
def handleTouchStart (env : Env) (st : CanvasState)
    (clientX clientY rectLeft rectTop : Int) : CanvasState :=
  if env.canvasPresent then
    let x := clientX - rectLeft
    let y := clientY - rectTop
    match findClickedStrokeIndex env st.strokes x y with
    | some i =>
      match st.strokes[i]? with
      | some stroke =>
          { st with
              isDragging := true
              draggedStrokeIndex := some i
              dragOffset := some ⟨x - stroke.position.x, y - stroke.position.y⟩ }
      | none => st
    | none =>
        { st with currentStroke := [⟨x, y⟩], isDrawing := true }
  else st

/-- `handleTouchMove`: in the dragging branch an early `return` when the
canvas is missing, then reposition as the mouse handler does; the drawing
branch is guarded by `isDrawing && canvasRef.current` like the mouse one. -/
def handleTouchMove (env : Env) (st : CanvasState)
    (clientX clientY rectLeft rectTop : Int) : CanvasState :=
  match st.isDragging, st.draggedStrokeIndex, st.dragOffset with
  | true, some i, some off =>
      if env.canvasPresent then
        let x := clientX - rectLeft
        let y := clientY - rectTop
        { st with strokes := repositionStrokes st.strokes i ⟨x - off.x, y - off.y⟩ }
      else st
  | _, _, _ =>
      if st.isDrawing && env.canvasPresent then
        let x := clientX - rectLeft
        let y := clientY - rectTop
        { st with currentStroke := st.currentStroke ++ [⟨x, y⟩] }
      else st

/-- `handleTouchEnd`: textually the same commit/cleanup logic as
`handleMouseUp`. -/
def handleTouchEnd (st : CanvasState) : CanvasState :=
  if st.isDragging then
    { st with isDragging := false, draggedStrokeIndex := none, dragOffset := none }
  else if st.isDrawing && st.currentStroke.length > 0 then
    { st with
        strokes := st.strokes ++
          [{ points := st.currentStroke, color := st.fillColor
             position := ⟨0, 0⟩ }]
        currentStroke := []
        isDrawing := false }
  else st

/-- `undo`: the Undo button's `setStrokes((prev) => prev.slice(0, -1))`. -/
def undo (strokes : List Stroke) : List Stroke :=
  strokes.dropLast

/-- Parsed JSON values, as produced by the platform's `JSON.parse`. -/
inductive Json where
  | null : Json
  | bool (b : Bool) : Json
  | num (n : Int) : Json
  | str (s : String) : Json
  | arr (elems : List Json) : Json
  | obj (fields : List (String × Json)) : Json

/-- JavaScript property access / destructuring of a parsed value: a named
field of an object, `none` (undefined) for a missing field or a non-object.
(`null` is excluded by the caller: destructuring `null` throws.) -/
def getField : Json → String → Option Json
  | .obj fields, k => (fields.find? fun f => f.1 = k).map Prod.snd
  | _, _ => none

/-- JSON encoding of a `Point`, as `JSON.stringify` lays it out. -/
def pointToJson (p : Point) : Json :=
  .obj [("x", .num p.x), ("y", .num p.y)]

/-- JSON encoding of a `Stroke`, as `JSON.stringify` lays it out. -/
def strokeToJson (s : Stroke) : Json :=
  .obj [("points", .arr (s.points.map pointToJson)),
        ("color", .str s.color),
        ("position", pointToJson s.position)]

/-- JSON encoding of the stroke list. -/
def strokesToJson (strokes : List Stroke) : Json :=
  .arr (strokes.map strokeToJson)

/-- `saveAsCustomFormat`'s record:
`JSON.stringify({ backgroundImage, strokes })` at the level of the parsed
JSON value, with `backgroundImage` the canvas raster snapshot string. -/
def saveRecord (backgroundImage : String) (strokes : List Stroke) : Json :=
  .obj [("backgroundImage", .str backgroundImage),
        ("strokes", strokesToJson strokes)]

/-- Reading a parsed JSON value back as a `Point` (the shape JavaScript
would have to find there for the loaded data to behave as a point). -/
def jsonToPoint : Json → Option Point
  | .obj fields =>
    match (fields.find? fun f => f.1 = "x").map Prod.snd,
          (fields.find? fun f => f.1 = "y").map Prod.snd with
    | some (.num x), some (.num y) => some ⟨x, y⟩
    | _, _ => none
  | _ => none

/-- Reading back a list of points. -/
def jsonToPoints : List Json → Option (List Point)
  | [] => some []
  | j :: rest =>
    match jsonToPoint j, jsonToPoints rest with
    | some p, some ps => some (p :: ps)
    | _, _ => none

/-- Reading a parsed JSON value back as a `Stroke`. -/
def jsonToStroke (j : Json) : Option Stroke :=
  match getField j "points", getField j "color", getField j "position" with
  | some (.arr pts), some (.str c), some pos =>
    match jsonToPoints pts, jsonToPoint pos with
    | some ps, some p => some ⟨ps, c, p⟩
    | _, _ => none
  | _, _, _ => none

/-- Reading back a stroke list. -/
def jsonToStrokeList : List Json → Option (List Stroke)
  | [] => some []
  | j :: rest =>
    match jsonToStroke j, jsonToStrokeList rest with
    | some s, some ss => some (s :: ss)
    | _, _ => none

/-- Reading a parsed JSON value back as the strokes of a document. -/
def jsonToStrokes : Json → Option (List Stroke)
  | .arr elems => jsonToStrokeList elems
  | _ => none

/-- A record is well formed exactly when it matches the `.draw` format of
the spec: a `backgroundImage` string and a well-shaped `strokes` list. -/
def decodeRecord (j : Json) : Option (String × List Stroke) :=
  match getField j "backgroundImage", getField j "strokes" with
  | some (.str bg), some s =>
    match jsonToStrokes s with
    | some strokes => some (bg, strokes)
    | none => none
  | _, _ => none

/-- Persisted document state as the load path sees it: the raw value stored
by `setStrokes(loadedStrokes)` (`none` models the JavaScript `undefined`
obtained when the parsed record has no `strokes` field) and the background
raster currently drawn on the canvas. -/
structure DocState where
  strokesVal : Option Json
  background : Option String

/-- `loadCustomFormat`, given the result of `JSON.parse` on the file text
(`none` = empty read result or thrown parse error, which aborts the handler
with no state change; `null` aborts at the destructuring).  For any other
parsed value the handler stores the record's `strokes` field via
`setStrokes` unconditionally, then — only if the canvas is attached, the
`backgroundImage` field is a string and the platform image decode
(`decodeImage`) succeeds — draws the decoded background. -/
def loadCustomFormat (decodeImage : String → Option String)
    (canvasPresent : Bool) (parsed : Option Json) (st : DocState) : DocState :=
  match parsed with
  | none => st
  | some .null => st
  | some j =>
    let st' := { st with strokesVal := getField j "strokes" }
    if canvasPresent then
      match getField j "backgroundImage" with
      | some (.str s) =>
        match decodeImage s with
        | some img => { st' with background := some img }
        | none => st'
      | _ => st'
    else st'

/-- Mouse events as the canvas receives them, carrying the canvas-local
`offsetX`/`offsetY` the source reads from `e.nativeEvent`. -/
inductive MouseEvt where
  | down (x y : Int)
  | move (x y : Int)
  | up

/-- Touch events, carrying the touch's `clientX`/`clientY` and the canvas
bounding rectangle's `left`/`top` from which the handlers derive local
coordinates. -/
inductive TouchEvt where
  | start (clientX clientY rectLeft rectTop : Int)
  | move (clientX clientY rectLeft rectTop : Int)
  | ended

/-- Dispatch of one mouse event to its handler. -/
def stepMouse (env : Env) (st : CanvasState) : MouseEvt → CanvasState
  | .down x y => handleMouseDown env st x y
  | .move x y => handleMouseMove env st x y
  | .up => handleMouseUp st

/-- Dispatch of one touch event to its handler. -/
def stepTouch (env : Env) (st : CanvasState) : TouchEvt → CanvasState
  | .start cx cy rl rt => handleTouchStart env st cx cy rl rt
  | .move cx cy rl rt => handleTouchMove env st cx cy rl rt
  | .ended => handleTouchEnd st

/-- Run a sequence of mouse events from a state. -/
def runMouse (env : Env) (st : CanvasState) (evts : List MouseEvt) :
    CanvasState :=
  evts.foldl (stepMouse env) st

/-- Run a sequence of touch events from a state. -/
def runTouch (env : Env) (st : CanvasState) (evts : List TouchEvt) :
    CanvasState :=
  evts.foldl (stepTouch env) st

/-- The mouse event whose canvas-local coordinates equal the ones the touch
handlers derive (`clientX - rect.left`, `clientY - rect.top`). -/
def correspondingMouse : TouchEvt → MouseEvt
  | .start cx cy rl rt => .down (cx - rl) (cy - rt)
  | .move cx cy rl rt => .move (cx - rl) (cy - rt)
  | .ended => .up

/-- Every event kind the component handles.  `mouseLeave` is wired to
`handleMouseUp` in the JSX.  `undoClick` is the Undo button, `colorChange`
the color input, and `fileLoad` a load of a well-formed record, which
replaces the stroke list (`setStrokes(loadedStrokes)`); no handler other
than the ones below touches the interaction state. -/
inductive Evt where
  | mouseDown (x y : Int)
  | mouseMove (x y : Int)
  | mouseUp
  | mouseLeave
  | touchStart (clientX clientY rectLeft rectTop : Int)
  | touchMove (clientX clientY rectLeft rectTop : Int)
  | touchEnd
  | undoClick
  | colorChange (c : String)
  | fileLoad (loaded : List Stroke)

/-- Dispatch of one event to its handler. -/
def stepEvt (env : Env) (e : Evt) (st : CanvasState) : CanvasState :=
  match e with
  | .mouseDown x y => handleMouseDown env st x y
  | .mouseMove x y => handleMouseMove env st x y
  | .mouseUp => handleMouseUp st
  | .mouseLeave => handleMouseUp st
  | .touchStart cx cy rl rt => handleTouchStart env st cx cy rl rt
  | .touchMove cx cy rl rt => handleTouchMove env st cx cy rl rt
  | .touchEnd => handleTouchEnd st
  | .undoClick => { st with strokes := undo st.strokes }
  | .colorChange c => { st with fillColor := c }
  | .fileLoad loaded => { st with strokes := loaded }

/-- States reachable from the initial state by any events under any
environments (the canvas may attach or detach between events). -/
inductive Reachable : CanvasState → Prop
  | init : Reachable initState
  | step (env : Env) (e : Evt) {st : CanvasState} :
      Reachable st → Reachable (stepEvt env e st)

/-! ## Helper lemmas -/

/-- `√(a² + b²) < 10` over the reals is the integer test `a² + b² < 100`. -/
theorem sqrt_sq_add_sq_lt_ten (a b : Int) :
    Real.sqrt ((a : ℝ) ^ 2 + (b : ℝ) ^ 2) < 10 ↔ a ^ 2 + b ^ 2 < 100 := by
  rw [Real.sqrt_lt' (by norm_num : (0 : ℝ) < 10)]
  constructor
  · intro h
    have : ((a ^ 2 + b ^ 2 : Int) : ℝ) < 100 := by push_cast; linarith
    exact_mod_cast this
  · intro h
    have : ((a ^ 2 + b ^ 2 : Int) : ℝ) < 100 := by exact_mod_cast h
    push_cast at this
    linarith

theorem repositionStrokes_getElem? (l : List Stroke) (i : Nat)
    (p : Point) (j : Nat) :
    (repositionStrokes l i p)[j]? =
      (l[j]?).map fun s => if j = i then { s with position := p } else s := by
  simp only [repositionStrokes, List.mapIdx_eq_enum_map, List.getElem?_map,
    List.getElem?_enum]
  cases l[j]? <;> simp

theorem repositionStrokes_length (l : List Stroke) (i : Nat) (p : Point) :
    (repositionStrokes l i p).length = l.length := by
  simp [repositionStrokes, List.mapIdx_eq_enum_map]

/-! ## Claim C3 — closed-path detection -/

/-- C3.  `isClosedPath P` is `true` iff `P` has at least two points and the
Euclidean distance from the first point of `P` to its last is strictly below
the 10-pixel threshold; any `P` with fewer than two points yields `false`. -/
theorem isClosedPath_iff_dist (P : List Point) :
    isClosedPath P = true ↔
      2 ≤ P.length ∧
        Real.sqrt (((P.getLastI.x - P.headI.x : Int) : ℝ) ^ 2 +
            ((P.getLastI.y - P.headI.y : Int) : ℝ) ^ 2) < 10 := by
  match P with
  | [] => simp [isClosedPath]
  | [p] => simp [isClosedPath]
  | p :: q :: rest =>
    have hlen : ¬((p :: q :: rest).length < 2) := by simp
    have hhead : (p :: q :: rest).headI = p := rfl
    have hlast : (p :: q :: rest).getLast? = some ((p :: q :: rest).getLastI) := by
      rw [List.getLastI_eq_getLast?]
      cases h : (p :: q :: rest).getLast? with
      | none => exact absurd h (by simp)
      | some e => rfl
    rw [isClosedPath, if_neg hlen]
    rw [show (p :: q :: rest).head? = some p from rfl, hlast]
    rw [sqrt_sq_add_sq_lt_ten]
    simp [hhead]

/-! ## Claim C8 — undo -/

/-- C8.  The Undo button replaces the stroke list by `undo` of it; `undo`
removes exactly the last element of a non-empty list and is a no-op on the
empty list, so two consecutive undos on an empty list leave it empty. -/
theorem undo_removes_last :
    (∀ (env : Env) (st : CanvasState),
        (stepEvt env Evt.undoClick st).strokes = undo st.strokes) ∧
      (∀ (l : List Stroke) (s : Stroke), undo (l ++ [s]) = l) ∧
      undo ([] : List Stroke) = [] ∧
      undo (undo ([] : List Stroke)) = [] := by
  refine ⟨fun env st => rfl, fun l s => ?_, rfl, rfl⟩
  simp [undo]

/-! ## Claim C1 — commit gate -/

/-- A drawing-in-progress state holding a single buffered point. -/
def singlePointDrawState : CanvasState :=
  { initState with isDrawing := true, currentStroke := [⟨0, 0⟩] }

/-- C1 counterexample.  The source gate is `currentStroke.length > 0`, not
`>= 2`: releasing (mouse-up or touch-end) after buffering exactly one point
appends a one-point stroke, so the stroke list length changes. -/
theorem commit_single_point_appends :
    singlePointDrawState.currentStroke.length = 1 ∧
      (handleMouseUp singlePointDrawState).strokes.length = 1 ∧
      (handleTouchEnd singlePointDrawState).strokes.length = 1 ∧
      ¬(handleMouseUp singlePointDrawState).strokes.length =
          singlePointDrawState.strokes.length := by
  refine ⟨rfl, rfl, rfl, by decide⟩

/-- C1 amended.  On mouse-up / mouse-leave / touch-end while not dragging:
a new stroke is appended iff the draw buffer is non-empty (at least 1
point); the appended stroke is exactly one, made of the buffered points with
the current fill color and `position = {0,0}`; with an empty buffer the
stroke list is unchanged.  Touch-end behaves identically to mouse-up. -/
theorem commit_gate_nonempty_buffer (st : CanvasState)
    (hdrag : st.isDragging = false) :
    handleTouchEnd st = handleMouseUp st ∧
      (st.isDrawing = true → st.currentStroke ≠ [] →
        (handleMouseUp st).strokes =
          st.strokes ++
            [{ points := st.currentStroke, color := st.fillColor
               position := ⟨0, 0⟩ }] ∧
          (handleMouseUp st).strokes.length = st.strokes.length + 1 ∧
          (handleMouseUp st).currentStroke = [] ∧
          (handleMouseUp st).isDrawing = false) ∧
      (st.isDrawing = false ∨ st.currentStroke = [] →
        (handleMouseUp st).strokes = st.strokes) := by
  refine ⟨rfl, ?_, ?_⟩
  · intro hdraw hne
    have hlen : st.currentStroke.length > 0 := List.length_pos.mpr hne
    simp [handleMouseUp, hdrag, hdraw, hlen]
  · intro h
    rcases h with hdraw | hempty
    · simp [handleMouseUp, hdrag, hdraw]
    · simp [handleMouseUp, hdrag, hempty]

/-- A drawing-in-progress state with two buffered points. -/
def twoPointDrawState : CanvasState :=
  { initState with
      isDrawing := true
      currentStroke := [⟨1, 2⟩, ⟨3, 4⟩]
      fillColor := "#112233" }

/-- Witness for `commit_gate_nonempty_buffer` at a concrete two-point
drawing state. -/
theorem commit_gate_nonempty_buffer_witness :
    (handleMouseUp twoPointDrawState).strokes =
      [{ points := [⟨1, 2⟩, ⟨3, 4⟩], color := "#112233"
         position := ⟨0, 0⟩ }] := by
  have h :=
    ((commit_gate_nonempty_buffer twoPointDrawState rfl).2.1 rfl
      (by decide)).1
  simpa [twoPointDrawState, initState] using h

/-- Whatever the background decode does, the load handler stores the
record's `strokes` field in the stroke store. -/
theorem loadCustomFormat_obj_strokesVal (decodeImage : String → Option String)
    (cp : Bool) (fields : List (String × Json)) (st : DocState) :
    (loadCustomFormat decodeImage cp (some (.obj fields)) st).strokesVal =
      getField (.obj fields) "strokes" := by
  simp only [loadCustomFormat]
  cases cp with
  | false => rfl
  | true =>
    simp only [if_true]
    cases hbg : getField (.obj fields) "backgroundImage" with
    | none => rfl
    | some v =>
      cases v with
      | str s => cases hdec : decodeImage s <;> simp [hbg, hdec]
      | null => simp [hbg]
      | bool b => simp [hbg]
      | num n => simp [hbg]
      | arr es => simp [hbg]
      | obj fs => simp [hbg]

/-! ## Claim C2 — load atomicity and failure surfacing -/

/-- A committed three-sided stroke used in the persistence scenarios. -/
def strokeA : Stroke :=
  { points := [⟨0, 0⟩, ⟨40, 0⟩, ⟨40, 40⟩, ⟨1, 1⟩]
    color := "#ff0000"
    position := ⟨0, 0⟩ }

/-- A record that is valid JSON but malformed for the `.draw` format: it has
a `backgroundImage` field and no `strokes` field. -/
def malformedRecord : Json :=
  .obj [("backgroundImage", .str "data:image/png;base64,AAAA")]

/-- Document state holding one committed stroke before a load. -/
def docBefore : DocState :=
  { strokesVal := some (strokesToJson [strokeA])
    background := some "bg0" }

/-- C2 counterexample.  Loading a malformed record (valid JSON, no
`strokes` field, hence `decodeRecord` rejects it) is not aborted: the
handler still runs `setStrokes(loadedStrokes)` with the destructured
`undefined`, so the stored stroke list changes — a partial update of a
document that should have been left untouched (and no failure value is
produced anywhere: the source has no catch/validation path). -/
theorem load_malformed_changes_state :
    decodeRecord malformedRecord = none ∧
      (loadCustomFormat (fun _ => none) true (some malformedRecord)
            docBefore).strokesVal ≠ docBefore.strokesVal := by
  constructor
  · rfl
  · intro h
    have hnone :
        (loadCustomFormat (fun _ => none) true (some malformedRecord)
            docBefore).strokesVal = none := rfl
    rw [hnone] at h
    exact Option.noConfusion h

/-- C2 amended.  If `JSON.parse` fails (or yields `null`, on which the
destructuring throws), the handler aborts with the document fully unchanged
— but nothing is reported to the host, the exception escapes uncaught.  If
parsing yields any other value, the stroke store is unconditionally
replaced by the record's `strokes` field (the `undefined` of a missing
field included), with no validation and no failure signal; only the
background update is conditional on the image decoding. -/
theorem load_unconditional_replace (decodeImage : String → Option String)
    (cp : Bool) (st : DocState) :
    loadCustomFormat decodeImage cp none st = st ∧
      loadCustomFormat decodeImage cp (some .null) st = st ∧
      ∀ fields : List (String × Json),
        (loadCustomFormat decodeImage cp (some (.obj fields))
            st).strokesVal = getField (.obj fields) "strokes" := by
  exact ⟨rfl, rfl, fun fields =>
    loadCustomFormat_obj_strokesVal decodeImage cp fields st⟩

/-! ## Claim C4 — reposition frame property -/

/-- C4.  In a dragging state, a mouse move repositions only the dragged
stroke: at index `i` the points and color are the previous ones unchanged
and only `position` becomes the new position; every other index holds
exactly its previous stroke; the length is unchanged; and as soon as the
new position actually differs, the resulting list is a different list value
than before (the source builds it with a fresh `map`). -/
theorem repositionStroke_frame (env : Env) (st : CanvasState) (x y : Int)
    (i : Nat) (off : Point) (s : Stroke)
    (hdrag : st.isDragging = true) (hidx : st.draggedStrokeIndex = some i)
    (hoff : st.dragOffset = some off) (hs : st.strokes[i]? = some s) :
    (handleMouseMove env st x y).strokes[i]? =
        some { points := s.points, color := s.color
               position := ⟨x - off.x, y - off.y⟩ } ∧
      (∀ j, j ≠ i →
        (handleMouseMove env st x y).strokes[j]? = st.strokes[j]?) ∧
      (handleMouseMove env st x y).strokes.length = st.strokes.length ∧
      ((⟨x - off.x, y - off.y⟩ : Point) ≠ s.position →
        (handleMouseMove env st x y).strokes ≠ st.strokes) := by
  have hmove :
      handleMouseMove env st x y =
        { st with
            strokes := repositionStrokes st.strokes i ⟨x - off.x, y - off.y⟩ } := by
    simp [handleMouseMove, hdrag, hidx, hoff]
  rw [hmove]
  refine ⟨?_, ?_, repositionStrokes_length _ _ _, ?_⟩
  · rw [repositionStrokes_getElem?, hs]
    simp
  · intro j hj
    rw [repositionStrokes_getElem?]
    cases h : st.strokes[j]? with
    | none => rfl
    | some s' => simp [hj]
  · intro hne heq
    have h1 :
        (repositionStrokes st.strokes i ⟨x - off.x, y - off.y⟩)[i]? =
          st.strokes[i]? := congrArg (fun l => l[i]?) heq
    rw [repositionStrokes_getElem?, hs] at h1
    simp only [Option.map_some', if_true, Option.some_inj] at h1
    have h2 := congrArg Stroke.position h1
    exact hne h2

/-- Environment whose containment primitive reports every point inside
every path. -/
def envAllHit : Env :=
  { canvasPresent := true, isPointInPath := fun _ _ _ => true }

/-- A dragging state over two strokes, dragging the stroke at index 0. -/
def draggingState : CanvasState :=
  { initState with
      strokes := [strokeA, { strokeA with color := "#00ff00" }]
      isDragging := true
      draggedStrokeIndex := some 0
      dragOffset := some ⟨2, 3⟩ }

/-- Witness for `repositionStroke_frame` at a concrete dragging state. -/
theorem repositionStroke_frame_witness :
    (handleMouseMove envAllHit draggingState 12 13).strokes[0]? =
        some { points := strokeA.points, color := strokeA.color
               position := ⟨10, 10⟩ } ∧
      (handleMouseMove envAllHit draggingState 12 13).strokes[1]? =
        draggingState.strokes[1]? ∧
      (handleMouseMove envAllHit draggingState 12 13).strokes ≠
        draggingState.strokes := by
  have h :=
    repositionStroke_frame envAllHit draggingState 12 13 0 ⟨2, 3⟩ strokeA
      rfl rfl rfl rfl
  refine ⟨?_, h.2.1 1 (by decide), h.2.2.2 (by decide)⟩
  have h0 := h.1
  simpa using h0

/-! ## Claim C5 — hit-test precedence -/

/-- The per-index test the scan loop performs: stroke `j`'s points shifted
by its position, handed to the containment primitive (`false` past the end
of the list). -/
def strokeContains (env : Env) (strokes : List Stroke) (x y : Int)
    (j : Nat) : Bool :=
  match strokes[j]? with
  | some s => isInsideStroke env (adjustedPoints s) x y
  | none => false

theorem findFromTop_spec (env : Env) (l : List Stroke) (x y : Int) :
    ∀ (n : Nat) (i : Nat),
      findFromTop env l x y n = some i ↔
        i < n ∧ strokeContains env l x y i = true ∧
          ∀ j, i < j → j < n → strokeContains env l x y j = false := by
  intro n
  induction n with
  | zero => intro i; simp [findFromTop]
  | succ m ih =>
    intro i
    rw [findFromTop]
    cases hm : l[m]? with
    | some s =>
      cases hin : isInsideStroke env (adjustedPoints s) x y with
      | true =>
        simp only [hin, if_true]
        constructor
        · intro h
          have hi : i = m := by
            exact (Option.some_inj.mp h).symm
          subst hi
          refine ⟨Nat.lt_succ_self i, ?_, ?_⟩
          · simp [strokeContains, hm, hin]
          · intro j hij hjm
            omega
        · rintro ⟨hilt, hci, hall⟩
          have : i = m := by
            by_contra hne
            have him : i < m := by omega
            have := hall m him (Nat.lt_succ_self m)
            simp [strokeContains, hm, hin] at this
          subst this
          rfl
      | false =>
        simp only [hin, Bool.false_eq_true, if_false]
        rw [ih i]
        constructor
        · rintro ⟨him, hci, hall⟩
          refine ⟨by omega, hci, ?_⟩
          intro j hij hjm
          by_cases hjm' : j < m
          · exact hall j hij hjm'
          · have : j = m := by omega
            subst this
            simp [strokeContains, hm, hin]
        · rintro ⟨him, hci, hall⟩
          have him' : i < m := by
            by_contra hge
            have : i = m := by omega
            subst this
            simp [strokeContains, hm, hin] at hci
          exact ⟨him', hci, fun j hij hjm => hall j hij (by omega)⟩
    | none =>
      rw [ih i]
      constructor
      · rintro ⟨him, hci, hall⟩
        refine ⟨by omega, hci, ?_⟩
        intro j hij hjm
        by_cases hjm' : j < m
        · exact hall j hij hjm'
        · have : j = m := by omega
          subst this
          simp [strokeContains, hm]
      · rintro ⟨him, hci, hall⟩
        have him' : i < m := by
          by_contra hge
          have : i = m := by omega
          subst this
          simp [strokeContains, hm] at hci
        exact ⟨him', hci, fun j hij hjm => hall j hij (by omega)⟩

/-- C5.  `findClickedStrokeIndex` returns `some i` exactly when `i` is the
largest index whose stroke — its points shifted by its own position —
contains the pointer (so of two overlapping strokes both containing the
pointer, the later-committed one is selected); and on a hit,
`handleMouseDown` enters dragging on exactly that index. -/
theorem hit_test_topmost (env : Env) (st : CanvasState) (x y : Int) :
    (∀ i : Nat,
        findClickedStrokeIndex env st.strokes x y = some i ↔
          i < st.strokes.length ∧
            strokeContains env st.strokes x y i = true ∧
            ∀ j, i < j → j < st.strokes.length →
              strokeContains env st.strokes x y j = false) ∧
      ∀ i : Nat, findClickedStrokeIndex env st.strokes x y = some i →
        (handleMouseDown env st x y).isDragging = true ∧
          (handleMouseDown env st x y).draggedStrokeIndex = some i := by
  constructor
  · intro i
    exact findFromTop_spec env st.strokes x y st.strokes.length i
  · intro i hfind
    have hi : i < st.strokes.length :=
      ((findFromTop_spec env st.strokes x y st.strokes.length i).mp hfind).1
    obtain ⟨s, hs⟩ : ∃ s, st.strokes[i]? = some s := by
      exact ⟨st.strokes[i], List.getElem?_eq_getElem hi⟩
    simp [handleMouseDown, hfind, hs]

/-- Two overlapping closed strokes: `strokeA` committed first and an
identical-geometry stroke committed second. -/
def overlapState : CanvasState :=
  { initState with strokes := [strokeA, { strokeA with color := "#00ff00" }] }

/-- Witness for `hit_test_topmost`: with both strokes containing the
pointer, index 1 (the later-committed stroke) is selected and dragged. -/
theorem hit_test_topmost_witness :
    findClickedStrokeIndex envAllHit overlapState.strokes 5 5 = some 1 ∧
      (handleMouseDown envAllHit overlapState 5 5).draggedStrokeIndex =
        some 1 := by
  have hfind : findClickedStrokeIndex envAllHit overlapState.strokes 5 5 =
      some 1 := by
    apply (hit_test_topmost envAllHit overlapState 5 5).1 1 |>.mpr
    refine ⟨by decide, by decide, ?_⟩
    intro j h1 h2
    have hlen : overlapState.strokes.length = 2 := rfl
    omega
  exact ⟨hfind, ((hit_test_topmost envAllHit overlapState 5 5).2 1 hfind).2⟩

/-! ## Claim C6 — save/load round-trip -/

theorem jsonToPoint_pointToJson (p : Point) :
    jsonToPoint (pointToJson p) = some p := by
  simp [jsonToPoint, pointToJson, List.find?]

theorem jsonToPoints_map (ps : List Point) :
    jsonToPoints (ps.map pointToJson) = some ps := by
  induction ps with
  | nil => rfl
  | cons p rest ih =>
    simp [jsonToPoints, jsonToPoint_pointToJson, ih]

theorem jsonToStroke_strokeToJson (s : Stroke) :
    jsonToStroke (strokeToJson s) = some s := by
  simp [jsonToStroke, strokeToJson, getField, List.find?,
    jsonToPoints_map, jsonToPoint_pointToJson]

theorem jsonToStrokeList_map (l : List Stroke) :
    jsonToStrokeList (l.map strokeToJson) = some l := by
  induction l with
  | nil => rfl
  | cons s rest ih =>
    simp [jsonToStrokeList, jsonToStroke_strokeToJson, ih]

/-- C6.  Round-trip: loading the record produced by save stores exactly the
serialized stroke list, and that serialized value reads back as a stroke
list equal to the original in length, order and every stroke's points,
color and position. -/
theorem save_load_roundtrip (decodeImage : String → Option String)
    (cp : Bool) (bg : String) (strokes0 : List Stroke) (st : DocState) :
    (loadCustomFormat decodeImage cp (some (saveRecord bg strokes0))
          st).strokesVal = some (strokesToJson strokes0) ∧
      jsonToStrokes (strokesToJson strokes0) = some strokes0 := by
  constructor
  · have hfield : getField (saveRecord bg strokes0) "strokes" =
        some (strokesToJson strokes0) := by
      simp [getField, saveRecord, List.find?]
    have h := loadCustomFormat_obj_strokesVal decodeImage cp
      [("backgroundImage", .str bg), ("strokes", strokesToJson strokes0)] st
    rw [show (Json.obj [("backgroundImage", .str bg),
          ("strokes", strokesToJson strokes0)]) = saveRecord bg strokes0
        from rfl] at h
    rw [h, hfield]
  · simp [jsonToStrokes, strokesToJson, jsonToStrokeList_map]

/-! ## Claim C7 — drag rigidity -/

/-- Run a sequence of mouse-move events given by their pointer positions. -/
def runMoves (env : Env) (st : CanvasState) (moves : List (Int × Int)) :
    CanvasState :=
  moves.foldl (fun acc m => handleMouseMove env acc m.1 m.2) st

theorem handleMouseMove_dragging (env : Env) (st : CanvasState) (x y : Int)
    (i : Nat) (off : Point) (hdrag : st.isDragging = true)
    (hidx : st.draggedStrokeIndex = some i) (hoff : st.dragOffset = some off) :
    handleMouseMove env st x y =
      { st with
          strokes := repositionStrokes st.strokes i ⟨x - off.x, y - off.y⟩ } := by
  simp [handleMouseMove, hdrag, hidx, hoff]

theorem runMoves_rigidity (env : Env) :
    ∀ (ms : List (Int × Int)) (q : Int × Int) (st : CanvasState) (i : Nat)
      (off : Point) (s : Stroke),
      st.isDragging = true → st.draggedStrokeIndex = some i →
      st.dragOffset = some off → st.strokes[i]? = some s →
      (runMoves env st (ms ++ [q])).isDragging = true ∧
        (runMoves env st (ms ++ [q])).draggedStrokeIndex = some i ∧
        (runMoves env st (ms ++ [q])).dragOffset = some off ∧
        (runMoves env st (ms ++ [q])).strokes[i]? =
          some { points := s.points, color := s.color
                 position := ⟨q.1 - off.x, q.2 - off.y⟩ } := by
  intro ms
  induction ms with
  | nil =>
    intro q st i off s hdrag hidx hoff hs
    have hmove := handleMouseMove_dragging env st q.1 q.2 i off hdrag hidx hoff
    have hrun : runMoves env st ([] ++ [q]) =
        handleMouseMove env st q.1 q.2 := rfl
    rw [hrun, hmove]
    refine ⟨hdrag, hidx, hoff, ?_⟩
    show (repositionStrokes st.strokes i ⟨q.1 - off.x, q.2 - off.y⟩)[i]? = _
    rw [repositionStrokes_getElem?, hs]
    simp
  | cons m ms ih =>
    intro q st i off s hdrag hidx hoff hs
    have hmove := handleMouseMove_dragging env st m.1 m.2 i off hdrag hidx hoff
    have hstep : runMoves env st ((m :: ms) ++ [q]) =
        runMoves env (handleMouseMove env st m.1 m.2) (ms ++ [q]) := rfl
    rw [hstep, hmove]
    have hs1 : (repositionStrokes st.strokes i
        ⟨m.1 - off.x, m.2 - off.y⟩)[i]? =
        some { points := s.points, color := s.color
               position := ⟨m.1 - off.x, m.2 - off.y⟩ } := by
      rw [repositionStrokes_getElem?, hs]
      simp
    exact ih q _ i off
      { points := s.points, color := s.color
        position := ⟨m.1 - off.x, m.2 - off.y⟩ } hdrag hidx hoff hs1

/-- C7.  A drag started with pointer-down at `p0` on stroke `i` (whose
position was `s.position`) fixes `dragOffset = p0 - s.position`; the offset
is unchanged after every subsequent move, and after any non-empty move
sequence ending at pointer `q` the dragged stroke's position is
`q - dragOffset = s.position + (q - p0)` — rigid attachment to the pointer
regardless of the grab point. -/
theorem drag_rigidity (env : Env) (st0 : CanvasState) (p0x p0y : Int)
    (i : Nat) (s : Stroke)
    (hfind : findClickedStrokeIndex env st0.strokes p0x p0y = some i)
    (hs : st0.strokes[i]? = some s)
    (ms : List (Int × Int)) (q : Int × Int) :
    (handleMouseDown env st0 p0x p0y).dragOffset =
        some ⟨p0x - s.position.x, p0y - s.position.y⟩ ∧
      (runMoves env (handleMouseDown env st0 p0x p0y)
            (ms ++ [q])).dragOffset =
        (handleMouseDown env st0 p0x p0y).dragOffset ∧
      (runMoves env (handleMouseDown env st0 p0x p0y)
            (ms ++ [q])).strokes[i]? =
        some { points := s.points, color := s.color
               position := ⟨s.position.x + (q.1 - p0x),
                            s.position.y + (q.2 - p0y)⟩ } := by
  have hdown : handleMouseDown env st0 p0x p0y =
      { st0 with
          isDragging := true
          draggedStrokeIndex := some i
          dragOffset := some ⟨p0x - s.position.x, p0y - s.position.y⟩ } := by
    simp [handleMouseDown, hfind, hs]
  have hrig := runMoves_rigidity env ms q (handleMouseDown env st0 p0x p0y) i
    ⟨p0x - s.position.x, p0y - s.position.y⟩ s
    (by rw [hdown]) (by rw [hdown]) (by rw [hdown]) (by rw [hdown]; exact hs)
  refine ⟨by rw [hdown], ?_, ?_⟩
  · rw [hrig.2.2.1, hdown]
  · rw [hrig.2.2.2]
    have hpt : (⟨q.1 - (p0x - s.position.x), q.2 - (p0y - s.position.y)⟩ :
          Point) =
        ⟨s.position.x + (q.1 - p0x), s.position.y + (q.2 - p0y)⟩ := by
      have h1 : q.1 - (p0x - s.position.x) = s.position.x + (q.1 - p0x) := by
        ring
      have h2 : q.2 - (p0y - s.position.y) = s.position.y + (q.2 - p0y) := by
        ring
      rw [h1, h2]
    rw [hpt]

/-- The single-stroke document the drag-rigidity witness drags. -/
def dragStartState : CanvasState :=
  { initState with strokes := [{ strokeA with position := ⟨2, 3⟩ }] }

/-- Witness for `drag_rigidity`: grab the stroke at `(7, 9)` and move to
`(20, 30)`; the stroke's position becomes `(2,3) + (20-7, 30-9) = (15, 24)`. -/
theorem drag_rigidity_witness :
    (runMoves envAllHit (handleMouseDown envAllHit dragStartState 7 9)
          [(20, 30)]).strokes[0]? =
      some { points := strokeA.points, color := strokeA.color
             position := ⟨15, 24⟩ } := by
  have h := drag_rigidity envAllHit dragStartState 7 9 0
    { strokeA with position := ⟨2, 3⟩ } (by decide) rfl [] (20, 30)
  have h3 := h.2.2
  rw [show ([] : List (Int × Int)) ++ [((20 : Int), (30 : Int))] =
      [((20 : Int), (30 : Int))] from rfl] at h3
  simpa using h3

/-! ## Claim C9 — touch/pointer equivalence -/

theorem touchStart_eq_mouseDown (env : Env) (h : env.canvasPresent = true)
    (st : CanvasState) (cx cy rl rt : Int) :
    handleTouchStart env st cx cy rl rt =
      handleMouseDown env st (cx - rl) (cy - rt) := by
  simp only [handleTouchStart, h, if_true]
  rfl

theorem touchMove_eq_mouseMove (env : Env) (h : env.canvasPresent = true)
    (st : CanvasState) (cx cy rl rt : Int) :
    handleTouchMove env st cx cy rl rt =
      handleMouseMove env st (cx - rl) (cy - rt) := by
  cases hd : st.isDragging with
  | false =>
    simp only [handleTouchMove, handleMouseMove, hd]
  | true =>
    cases hi : st.draggedStrokeIndex with
    | none => simp only [handleTouchMove, handleMouseMove, hd, hi]
    | some i =>
      cases ho : st.dragOffset with
      | none => simp only [handleTouchMove, handleMouseMove, hd, hi, ho]
      | some off =>
        simp only [handleTouchMove, handleMouseMove, hd, hi, ho, h, if_true]

theorem touchEnd_eq_mouseUp (st : CanvasState) :
    handleTouchEnd st = handleMouseUp st := rfl

/-- C9.  With the canvas attached (the situation in which touch events have
derivable canvas-local coordinates), every touch event acts on the state
exactly as the mouse event with the same local coordinates, and hence every
touch event sequence drives the state — run from any start state, so every
intermediate state too — to the very state the corresponding mouse sequence
produces, with an identical stroke list. -/
theorem touch_mouse_equiv (env : Env) (h : env.canvasPresent = true) :
    (∀ (st : CanvasState) (e : TouchEvt),
        stepTouch env st e = stepMouse env st (correspondingMouse e)) ∧
      ∀ (evts : List TouchEvt) (st : CanvasState),
        runTouch env st evts =
          runMouse env st (evts.map correspondingMouse) := by
  have hstep : ∀ (st : CanvasState) (e : TouchEvt),
      stepTouch env st e = stepMouse env st (correspondingMouse e) := by
    intro st e
    cases e with
    | start cx cy rl rt => exact touchStart_eq_mouseDown env h st cx cy rl rt
    | move cx cy rl rt => exact touchMove_eq_mouseMove env h st cx cy rl rt
    | ended => exact touchEnd_eq_mouseUp st
  refine ⟨hstep, ?_⟩
  intro evts
  induction evts with
  | nil => intro st; rfl
  | cons e rest ih =>
    intro st
    have h1 : runTouch env st (e :: rest) =
        runTouch env (stepTouch env st e) rest := rfl
    have h2 : runMouse env st ((e :: rest).map correspondingMouse) =
        runMouse env (stepMouse env st (correspondingMouse e))
          (rest.map correspondingMouse) := rfl
    rw [h1, h2, hstep st e, ih]

/-- Witness for `touch_mouse_equiv`: a concrete touch draw session
(start, move, end with rect origin `(10, 20)`) produces exactly the stroke
list of the corresponding mouse session. -/
theorem touch_mouse_equiv_witness :
    runTouch envAllHit initState
        [.start 11 22 10 20, .move 15 27 10 20, .ended] =
      runMouse envAllHit initState
        [.down 1 2, .move 5 7, .up] := by
  have h := (touch_mouse_equiv envAllHit rfl).2
    [.start 11 22 10 20, .move 15 27 10 20, .ended] initState
  simpa using h

/-! ## Claim C10 — drawing-buffer invariant -/

/-- One event preserves "while drawing, the buffer is non-empty". -/
theorem stepEvt_preserves_buffer (env : Env) (e : Evt) (st : CanvasState)
    (ih : st.isDrawing = true → st.currentStroke ≠ []) :
    (stepEvt env e st).isDrawing = true →
      (stepEvt env e st).currentStroke ≠ [] := by
  cases e with
  | mouseDown x y =>
    simp only [stepEvt, handleMouseDown]
    split
    · split
      · exact ih
      · exact ih
    · intro _
      simp
  | mouseMove x y =>
    simp only [stepEvt, handleMouseMove]
    split
    · exact ih
    · split
      · intro _
        simp
      · exact ih
  | mouseUp =>
    simp only [stepEvt, handleMouseUp]
    split
    · exact ih
    · split
      · intro hfalse
        simp at hfalse
      · exact ih
  | mouseLeave =>
    simp only [stepEvt, handleMouseUp]
    split
    · exact ih
    · split
      · intro hfalse
        simp at hfalse
      · exact ih
  | touchStart cx cy rl rt =>
    simp only [stepEvt, handleTouchStart]
    split
    · split
      · split
        · exact ih
        · exact ih
      · intro _
        simp
    · exact ih
  | touchMove cx cy rl rt =>
    simp only [stepEvt, handleTouchMove]
    split
    · split
      · exact ih
      · exact ih
    · split
      · intro _
        simp
      · exact ih
  | touchEnd =>
    simp only [stepEvt, handleTouchEnd]
    split
    · exact ih
    · split
      · intro hfalse
        simp at hfalse
      · exact ih
  | undoClick => exact ih
  | colorChange c => exact ih
  | fileLoad loaded => exact ih

/-- C10.  In every reachable state, being in the Drawing state implies the
draw buffer is non-empty, so the live-feedback read
`currentStroke[currentStroke.length - 1]` in the move handlers always finds
an existing last element. -/
theorem drawing_buffer_nonempty (st : CanvasState) (hreach : Reachable st)
    (hdraw : st.isDrawing = true) :
    st.currentStroke ≠ [] ∧ ∃ p, st.currentStroke.getLast? = some p := by
  have hinv : ∀ s, Reachable s → s.isDrawing = true → s.currentStroke ≠ [] := by
    intro s hr
    induction hr with
    | init =>
      intro h
      simp [initState] at h
    | step env e hprev ih => exact stepEvt_preserves_buffer env e _ ih
  have hne := hinv st hreach hdraw
  refine ⟨hne, ?_⟩
  cases hl : st.currentStroke.getLast? with
  | none => exact absurd (List.getLast?_eq_none_iff.mp hl) hne
  | some p => exact ⟨p, rfl⟩

/-- Environment whose containment primitive reports no point inside any
path (an empty document behaves this way too). -/
def envNoHit : Env :=
  { canvasPresent := true, isPointInPath := fun _ _ _ => false }

/-- Witness for `drawing_buffer_nonempty`: the state reached by a single
pointer-down on an empty document is Drawing and its buffer is non-empty. -/
theorem drawing_buffer_nonempty_witness :
    (stepEvt envNoHit (Evt.mouseDown 0 0) initState).currentStroke ≠ [] := by
  have h := drawing_buffer_nonempty
    (stepEvt envNoHit (Evt.mouseDown 0 0) initState)
    (Reachable.step envNoHit (Evt.mouseDown 0 0) Reachable.init) rfl
  exact h.1
